import Mathlib

/-!
Verification of the schema-lowering engine described by this repository's
rule documentation (ANALYSIS_OPUS.md, ANALYSIS_SONNET.md) and specification.
The repository contains worked examples (`content.config.ts` files) and the
observed JSON Schema outputs' rule tables, but no implementation of the
lowering engine itself; the engine is therefore modelled here from the spec,
faithfully to its per-variant rule table (§4.3), the required/default
accumulator (§4.4), the collection wrapper (§4.2) and the resolver (§4.1).
-/

/-- Modelled from the spec: the JSON documents emitted by the lowering engine
(JSON Schema Draft-7 fragments).  Object member lists are ordered, matching
the byte-for-byte deterministic output the spec requires. -/
inductive Json where
  | str (s : String)
  | num (n : Int)
  | bool (b : Bool)
  | arr (elems : List Json)
  | obj (members : List (String × Json))

/-- Lookup of a key in an ordered JSON object member list (first match). -/
def lookupEntry : List (String × Json) → String → Option Json
  | [], _ => none
  | (k', v) :: rest, k => if k' = k then some v else lookupEntry rest k

/-- Lookup of a key at the top level of a JSON object. -/
def jsonGet : Json → String → Option Json
  | .obj kvs, k => lookupEntry kvs k
  | _, _ => none

mutual

/-- Number of object keys literally equal to the reference token, anywhere in
a JSON value.  Used to state that no reference mechanism survives lowering. -/
def countRef : Json → Nat
  | .obj kvs => countRefMembers kvs
  | .arr es => countRefList es
  | _ => 0

def countRefList : List Json → Nat
  | [] => 0
  | j :: js => countRef j + countRefList js

def countRefMembers : List (String × Json) → Nat
  | [] => 0
  | (k, v) :: kvs => (if k = "$ref" then 1 else 0) + countRef v + countRefMembers kvs

end

/-- Modelled from the spec: string format markers (`email`, `url`). -/
inductive StrFormat where
  | email
  | url
deriving DecidableEq

/-- Modelled from the spec: `email → "email"`, `url → "uri"`. -/
def formatName : StrFormat → String
  | .email => "email"
  | .url => "uri"

/-- Modelled from the spec: constraint names that can carry an explicit error
message (the `errorMessages : Mapping<ConstraintName, String>` of §3). -/
inductive ConstraintName where
  | minItems
  | maxItems
  | minLength
  | maxLength
  | minimum
  | maximum
deriving DecidableEq

/-- Output key for a constraint name inside the `errorMessage` object. -/
def constraintKey : ConstraintName → String
  | .minItems => "minItems"
  | .maxItems => "maxItems"
  | .minLength => "minLength"
  | .maxLength => "maxLength"
  | .minimum => "minimum"
  | .maximum => "maximum"

/-- Modelled from the spec: `FieldModifiers` (§3) attached to a node used as
an object field: `optional`, `default`, `description`, `errorMessages`. -/
structure FieldModifiers where
  optional : Bool
  default : Option Json
  description : Option String
  errorMessages : List (ConstraintName × String)

/-- The plain field: not optional, no default, no description, no messages. -/
def FieldModifiers.plain : FieldModifiers :=
  ⟨false, none, none, []⟩

/-- Modelled from the spec: the value carried by a `Literal` node. -/
inductive LitVal where
  | str (s : String)
  | num (n : Int)
  | bool (b : Bool)
deriving DecidableEq

/-- JSON Schema primitive type name of a literal value. -/
def litType : LitVal → String
  | .str _ => "string"
  | .num _ => "number"
  | .bool _ => "boolean"

/-- JSON encoding of a literal value. -/
def litToJson : LitVal → Json
  | .str s => .str s
  | .num n => .num n
  | .bool b => .bool b

/-- Modelled from the spec: `SchemaNode` (§3), the fully-resolved schema tree
fed to the lowering engine.  `record` is `z.record(value)`, `recordKV` is
`z.record(key, value)`; `refined`/`transformed` wrap a node carrying a custom
predicate or value transform (§4.3 drop policy). -/
inductive SchemaNode where
  | string (minLength maxLength : Option Nat) (format : Option StrFormat)
  | number (isInt : Bool) (minimum maximum : Option Int) (positive : Bool)
  | boolean
  | date (coerce : Bool)
  | literal (v : LitVal)
  | enum (values : List String)
  | array (item : SchemaNode) (minItems maxItems : Option Nat)
  | tuple (items : List SchemaNode)
  | objectType (fields : List (String × FieldModifiers × SchemaNode))
  | record (valueSchema : SchemaNode)
  | recordKV (keySchema valueSchema : SchemaNode)
  | union (variants : List SchemaNode)
  | discUnion (key : String) (variants : List SchemaNode)
  | reference (target : String)
  | image
  | refined (inner : SchemaNode)
  | transformed (inner : SchemaNode)

/-- Emit `[(key, f a)]` for a present option, nothing for an absent one. -/
def optEntry (key : String) (f : α → Json) : Option α → List (String × Json)
  | some a => [(key, f a)]
  | none => []

/-- Modelled from the spec: modifier application (§4.3) — `description`
duplicates into `markdownDescription`, `default` is emitted verbatim, and
explicit constraint messages form the non-standard `errorMessage` object. -/
def applyModifiers (m : FieldModifiers) : Json → Json
  | .obj kvs =>
      .obj (kvs
        ++ (match m.description with
            | some d => [("description", .str d), ("markdownDescription", .str d)]
            | none => [])
        ++ optEntry "default" id m.default
        ++ (match m.errorMessages with
            | [] => []
            | es => [("errorMessage", .obj (es.map fun e => (constraintKey e.1, .str e.2)))]))
  | j => j

/-- Modelled from the spec: the fixed three-member `anyOf` every `Date` node
lowers to (§4.3). -/
def dateAnyOf : Json :=
  .obj [("anyOf", .arr
    [ .obj [("type", .str "string"), ("format", .str "date-time")]
    , .obj [("type", .str "string"), ("format", .str "date")]
    , .obj [("type", .str "integer"), ("format", .str "unix-time")]])]

/-- Modelled from the spec: the fixed three-way shape of a collection
`Reference` node (§4.3), independent of the target collection. -/
def referenceAnyOf : Json :=
  .obj [("anyOf", .arr
    [ .obj [("type", .str "string")]
    , .obj [("type", .str "object"),
            ("properties", .obj [("id", .obj [("type", .str "string")]),
                                 ("collection", .obj [("type", .str "string")])]),
            ("required", .arr [.str "id", .str "collection"]),
            ("additionalProperties", .bool false)]
    , .obj [("type", .str "object"),
            ("properties", .obj [("slug", .obj [("type", .str "string")]),
                                 ("collection", .obj [("type", .str "string")])]),
            ("required", .arr [.str "slug", .str "collection"]),
            ("additionalProperties", .bool false)]])]

/-- Modelled from the spec: the required/default accumulator (§4.4) — a field
name enters `required` iff `optional = false` and `default` is absent, in
declaration order. -/
def requiredNames (fields : List (String × FieldModifiers × SchemaNode)) : List String :=
  (fields.filter fun f => !f.2.1.optional && f.2.1.default.isNone).map (·.1)

/-- A `Union` variant viewed as a literal, when it is one. -/
def asLiteral : SchemaNode → Option LitVal
  | .literal v => some v
  | _ => none

/-- Collect the literal values of a variant list, when every member is a
literal. -/
def allLiterals : List SchemaNode → Option (List LitVal)
  | [] => some []
  | v :: vs =>
      match asLiteral v, allLiterals vs with
      | some l, some ls => some (l :: ls)
      | _, _ => none

/-- Modelled from the spec: the union-of-literals check (§4.3) — a non-empty
variant list all of whose members are literals of one primitive type yields
that type and the literal values; anything else yields nothing. -/
def uniformLiterals (vs : List SchemaNode) : Option (String × List LitVal) :=
  match allLiterals vs with
  | none => none
  | some [] => none
  | some (l :: ls) =>
      if ls.all (fun x => litType x == litType l) then some (litType l, l :: ls) else none

mutual

/-- Modelled from the spec: the lowering engine `lower` (§4.3), the recursive
node-to-JSON-Schema transform, one case per variant of the rule table. -/
def lowerNode : SchemaNode → Json
  | .string minL maxL fmt =>
      .obj ([("type", .str "string")]
        ++ optEntry "minLength" (fun n => .num n) minL
        ++ optEntry "maxLength" (fun n => .num n) maxL
        ++ optEntry "format" (fun f => .str (formatName f)) fmt)
  | .number isInt mn mx pos =>
      .obj ([("type", .str (if isInt then "integer" else "number"))]
        ++ optEntry "minimum" (fun n => .num n) mn
        ++ optEntry "maximum" (fun n => .num n) mx
        ++ (if pos then [("exclusiveMinimum", .num 0)] else []))
  | .boolean => .obj [("type", .str "boolean")]
  | .date _ => dateAnyOf
  | .literal v => .obj [("type", .str (litType v)), ("const", litToJson v)]
  | .enum vals => .obj [("type", .str "string"), ("enum", .arr (vals.map .str))]
  | .array item mi ma =>
      .obj ([("type", .str "array"), ("items", lowerNode item)]
        ++ optEntry "minItems" (fun n => .num n) mi
        ++ optEntry "maxItems" (fun n => .num n) ma)
  | .tuple items =>
      .obj [("type", .str "array"),
            ("minItems", .num items.length), ("maxItems", .num items.length),
            ("items", .arr (lowerList items))]
  | .objectType fields =>
      .obj ([("type", .str "object"),
             ("properties", .obj (lowerFields fields))]
        ++ (match requiredNames fields with
            | [] => []
            | req => [("required", .arr (req.map .str))])
        ++ [("additionalProperties", .bool false)])
  | .record v => .obj [("type", .str "object"), ("additionalProperties", lowerNode v)]
  | .recordKV _ v => .obj [("type", .str "object"), ("additionalProperties", lowerNode v)]
  | .union variants =>
      match uniformLiterals variants with
      | some (t, lits) => .obj [("type", .str t), ("enum", .arr (lits.map litToJson))]
      | none => .obj [("anyOf", .arr (lowerList variants))]
  | .discUnion _ variants => .obj [("anyOf", .arr (lowerList variants))]
  | .reference _ => referenceAnyOf
  | .image => .obj [("type", .str "string")]
  | .refined inner => lowerNode inner
  | .transformed inner => lowerNode inner

/-- Lowering of a list of nodes (tuple members, union variants). -/
def lowerList : List SchemaNode → List Json
  | [] => []
  | n :: ns => lowerNode n :: lowerList ns

/-- Lowering of an object's field list into `properties` members, with each
field's modifiers applied to its lowered fragment. -/
def lowerFields : List (String × FieldModifiers × SchemaNode) → List (String × Json)
  | [] => []
  | f :: fs => (f.1, applyModifiers f.2.1 (lowerNode f.2.2)) :: lowerFields fs

end

theorem lowerList_eq_map (ns : List SchemaNode) : lowerList ns = ns.map lowerNode := by
  induction ns with
  | nil => rfl
  | cons n ns ih => simp [lowerList, ih]

theorem lowerFields_eq_map (fs : List (String × FieldModifiers × SchemaNode)) :
    lowerFields fs = fs.map (fun f => (f.1, applyModifiers f.2.1 (lowerNode f.2.2))) := by
  induction fs with
  | nil => rfl
  | cons f fs ih => simp [lowerFields, ih]

example : lowerNode (.string none none (some .email)) =
    .obj [("type", .str "string"), ("format", .str "email")] := rfl

example : lowerNode (.number true none none true) =
    .obj [("type", .str "integer"), ("exclusiveMinimum", .num 0)] := rfl

example : lowerNode (.array (.string none none none) (some 1) (some 5)) =
    .obj [("type", .str "array"), ("items", .obj [("type", .str "string")]),
          ("minItems", .num 1), ("maxItems", .num 5)] := rfl

example : lowerNode (.tuple [.number false none none false, .number false none none false]) =
    .obj [("type", .str "array"), ("minItems", .num 2), ("maxItems", .num 2),
          ("items", .arr [.obj [("type", .str "number")], .obj [("type", .str "number")]])] := rfl

/-- Modelled from the spec: the loader kind of a collection (§3). -/
inductive LoaderKind where
  | glob
  | file
  | custom
deriving DecidableEq

/-- The synthetic property every collection definition gains (§4.2). -/
def schemaPropEntry : String × Json :=
  ("$schema", .obj [("type", .str "string")])

/-- Prepend the synthetic property to an object schema's member list. -/
def addSchemaProp : Json → Json
  | .obj props => .obj (schemaPropEntry :: props)
  | j => j

/-- Modelled from the spec: for glob/custom loaders the synthetic property is
injected into the entry schema's `properties` (and nowhere else) (§4.2). -/
def injectSchemaProp : Json → Json
  | .obj kvs => .obj (kvs.map fun kv => if kv.1 = "properties" then (kv.1, addSchemaProp kv.2) else kv)
  | j => j

/-- Modelled from the spec: the collection wrapper's definition body (§4.2) —
file-backed collections nest the entry schema behind `additionalProperties`;
glob/custom collections are the entry schema with the synthetic property. -/
def definitionBody : LoaderKind → Json → Json
  | .file, entry =>
      .obj [("type", .str "object"),
            ("properties", .obj [schemaPropEntry]),
            ("additionalProperties", entry)]
  | _, entry => injectSchemaProp entry

/-- Modelled from the spec: the fixed document envelope (§4.2), keyed by the
collection name. -/
def emitDocument (name : String) (lk : LoaderKind) (entry : Json) : Json :=
  .obj [("$ref", .str ("#/definitions/" ++ name)),
        ("definitions", .obj [(name, definitionBody lk entry)]),
        ("$schema", .str "http://json-schema.org/draft-07/schema#")]

/-- Modelled from the spec: a raw default value before resolution — either a
literal or a named identifier (§4.1). -/
inductive RawValue where
  | lit (v : Json)
  | ident (x : String)

/-- Modelled from the spec: an `Enum` value source — an inline literal list
or an identifier naming a constant array (§4.1). -/
inductive EnumSource where
  | inline (values : List String)
  | ident (x : String)

/-- Field modifiers before resolution: the default may be an identifier. -/
structure RawFieldModifiers where
  optional : Bool
  default : Option RawValue
  description : Option String
  errorMessages : List (ConstraintName × String)

/-- Plain raw field modifiers. -/
def RawFieldModifiers.plain : RawFieldModifiers :=
  ⟨false, none, none, []⟩

/-- Modelled from the spec: the schema definition tree as written, possibly
containing identifier references — enum sources, identifier defaults, and
reusable schema-fragment references (`fragRef`) (§4.1). -/
inductive RawNode where
  | string (minLength maxLength : Option Nat) (format : Option StrFormat)
  | number (isInt : Bool) (minimum maximum : Option Int) (positive : Bool)
  | boolean
  | date (coerce : Bool)
  | literal (v : LitVal)
  | enum (source : EnumSource)
  | array (item : RawNode) (minItems maxItems : Option Nat)
  | tuple (items : List RawNode)
  | objectType (fields : List (String × RawFieldModifiers × RawNode))
  | record (valueSchema : RawNode)
  | recordKV (keySchema valueSchema : RawNode)
  | union (variants : List RawNode)
  | discUnion (key : String) (variants : List RawNode)
  | reference (target : String)
  | image
  | refined (inner : RawNode)
  | transformed (inner : RawNode)
  | fragRef (x : String)

/-- Modelled from the spec: a resolution failure is fatal and reported with
the offending field path and identifier name (§4.1, §7). -/
structure ResolveError where
  path : List String
  ident : String
deriving DecidableEq

/-- Modelled from the spec: the closed, pre-resolved mapping from identifier
to concrete value or expanded fragment handed to the engine (§9), treated as
a dependency-injected lookup table. -/
structure Env where
  values : String → Option Json
  fragments : String → Option SchemaNode

/-- Look an identifier up among the environment's constant values. -/
def Env.value? (env : Env) (x : String) : Option Json :=
  env.values x

/-- View a resolved constant as a list of enum strings, when it is one. -/
def asStringList : Json → Option (List String)
  | .arr es => es.mapM fun e => match e with | .str s => some s | _ => none
  | _ => none

/-- Resolve a raw default value: identifiers are replaced by the concrete
value from the environment; an unknown identifier is a fatal error. -/
def resolveValue (env : Env) (path : List String) : RawValue → Except ResolveError Json
  | .lit v => .ok v
  | .ident x =>
      match env.value? x with
      | some v => .ok v
      | none => .error ⟨path, x⟩

/-- Resolve a field's modifiers (only the default can name an identifier). -/
def resolveModifiers (env : Env) (path : List String) (m : RawFieldModifiers) :
    Except ResolveError FieldModifiers :=
  match m.default with
  | none => .ok ⟨m.optional, none, m.description, m.errorMessages⟩
  | some rv => (resolveValue env path rv).map fun v => ⟨m.optional, some v, m.description, m.errorMessages⟩

/-- Resolve an enum value source to its concrete string list. -/
def resolveEnum (env : Env) (path : List String) : EnumSource → Except ResolveError (List String)
  | .inline vals => .ok vals
  | .ident x =>
      match env.value? x with
      | some v =>
          match asStringList v with
          | some strs => .ok strs
          | none => .error ⟨path, x⟩
      | none => .error ⟨path, x⟩

mutual

/-- Modelled from the spec: the constant/identifier resolver (§4.1) — replace
every identifier by its concrete value or fully-inlined fragment, threading
the field path for error reporting; no identifier survives resolution. -/
def resolveNode (env : Env) (path : List String) : RawNode → Except ResolveError SchemaNode
  | .string minL maxL fmt => .ok (.string minL maxL fmt)
  | .number isInt mn mx pos => .ok (.number isInt mn mx pos)
  | .boolean => .ok .boolean
  | .date c => .ok (.date c)
  | .literal v => .ok (.literal v)
  | .enum src => (resolveEnum env path src).map .enum
  | .array item mi ma => (resolveNode env path item).map fun i => .array i mi ma
  | .tuple items => (resolveList env path items).map .tuple
  | .objectType fields => (resolveFields env path fields).map .objectType
  | .record v => (resolveNode env path v).map .record
  | .recordKV k v => do
      let k' ← resolveNode env path k
      let v' ← resolveNode env path v
      .ok (.recordKV k' v')
  | .union variants => (resolveList env path variants).map .union
  | .discUnion key variants => (resolveList env path variants).map (.discUnion key)
  | .reference t => .ok (.reference t)
  | .image => .ok .image
  | .refined inner => (resolveNode env path inner).map .refined
  | .transformed inner => (resolveNode env path inner).map .transformed
  | .fragRef x =>
      match env.fragments x with
      | some frag => .ok frag
      | none => .error ⟨path, x⟩

/-- Resolve a list of nodes in order, stopping at the first failure. -/
def resolveList (env : Env) (path : List String) : List RawNode → Except ResolveError (List SchemaNode)
  | [] => .ok []
  | n :: ns => do
      let n' ← resolveNode env path n
      let ns' ← resolveList env path ns
      .ok (n' :: ns')

/-- Resolve an object's fields in declaration order, extending the field path
with each field's name, stopping at the first failure. -/
def resolveFields (env : Env) (path : List String) :
    List (String × RawFieldModifiers × RawNode) →
    Except ResolveError (List (String × FieldModifiers × SchemaNode))
  | [] => .ok []
  | (name, rm, rn) :: fs => do
      let m ← resolveModifiers env (path ++ [name]) rm
      let n ← resolveNode env (path ++ [name]) rn
      let rest ← resolveFields env path fs
      .ok ((name, m, n) :: rest)

end

/-- Modelled from the spec: a collection definition (§3) — a name, a loader
kind, and the root schema tree as written. -/
structure CollectionDefinition where
  name : String
  loaderKind : LoaderKind
  rootSchema : RawNode

/-- Modelled from the spec: the full pipeline for one collection (§2) —
resolve, lower, wrap in the fixed envelope; a resolution failure yields an
error and no document at all. -/
def lowerCollection (env : Env) (c : CollectionDefinition) : Except ResolveError Json :=
  (resolveNode env [] c.rootSchema).map fun s => emitDocument c.name c.loaderKind (lowerNode s)

/-- Generic lookup in an association list keyed by strings (first match). -/
def lookupIn : List (String × α) → String → Option α
  | [], _ => none
  | (k, a) :: rest, x => if k = x then some a else lookupIn rest x

/-- Modelled from the spec: a source module as seen by the resolver (§6, §9) —
its own constant declarations and its imports, each import binding a local
identifier to the module it comes from. -/
structure SourceModule where
  decls : List (String × Json)
  imports : List (String × String)

/-- Modelled from the spec: cross-module identifier resolution (§4.1) — a
local declaration wins, otherwise an import is followed into its source
module; fuel bounds the import-chain length (cyclic imports are a
precondition violation, §7). -/
def lookupConst (ms : List (String × SourceModule)) : Nat → String → String → Option Json
  | 0, _, _ => none
  | fuel + 1, modName, x =>
      match lookupIn ms modName with
      | none => none
      | some m =>
          match lookupIn m.decls x with
          | some v => some v
          | none =>
              match lookupIn m.imports x with
              | some src => lookupConst ms fuel src x
              | none => none

/-- The resolution environment a given module provides to the engine: every
identifier resolves through the module graph; no fragments. -/
def moduleEnv (ms : List (String × SourceModule)) (fuel : Nat) (modName : String) : Env :=
  ⟨fun x => lookupConst ms fuel modName x, fun _ => none⟩

/-- Whether a raw default value names an identifier the environment cannot
resolve. -/
def valueUnresolved (env : Env) : Option RawValue → Bool
  | some (.ident x) => (env.values x).isNone
  | _ => false

/-- Whether an enum source names an identifier the environment cannot
resolve. -/
def enumUnresolved (env : Env) : EnumSource → Bool
  | .ident x => (env.values x).isNone
  | .inline _ => false

mutual

/-- Whether a raw tree contains an identifier the environment cannot resolve
(an unresolvable enum source, default value, or fragment reference). -/
def hasUnresolved (env : Env) : RawNode → Bool
  | .enum src => enumUnresolved env src
  | .array item _ _ => hasUnresolved env item
  | .tuple items => hasUnresolvedList env items
  | .objectType fields => hasUnresolvedFields env fields
  | .record v => hasUnresolved env v
  | .recordKV k v => hasUnresolved env k || hasUnresolved env v
  | .union vs => hasUnresolvedList env vs
  | .discUnion _ vs => hasUnresolvedList env vs
  | .refined n => hasUnresolved env n
  | .transformed n => hasUnresolved env n
  | .fragRef x => (env.fragments x).isNone
  | _ => false

def hasUnresolvedList (env : Env) : List RawNode → Bool
  | [] => false
  | n :: ns => hasUnresolved env n || hasUnresolvedList env ns

def hasUnresolvedFields (env : Env) : List (String × RawFieldModifiers × RawNode) → Bool
  | [] => false
  | (_, rm, rn) :: fs =>
      valueUnresolved env rm.default || hasUnresolved env rn || hasUnresolvedFields env fs

end

/-- Whether a field's modifiers carry a default value free of the reference
token (object defaults could in principle smuggle a reference key in). -/
def modClean (m : FieldModifiers) : Bool :=
  match m.default with
  | none => true
  | some d => countRef d == 0

mutual

/-- Whether a resolved tree is free of the reference token: no field is named
with it and no default value contains it as an object key. -/
def refClean : SchemaNode → Bool
  | .array item _ _ => refClean item
  | .tuple items => refCleanList items
  | .objectType fields => refCleanFields fields
  | .record v => refClean v
  | .recordKV _ v => refClean v
  | .union vs => refCleanList vs
  | .discUnion _ vs => refCleanList vs
  | .refined n => refClean n
  | .transformed n => refClean n
  | _ => true

def refCleanList : List SchemaNode → Bool
  | [] => true
  | n :: ns => refClean n && refCleanList ns

def refCleanFields : List (String × FieldModifiers × SchemaNode) → Bool
  | [] => true
  | (name, m, s) :: fs => !(name == "$ref") && modClean m && refClean s && refCleanFields fs

end

theorem requiredNames_sublist (fields : List (String × FieldModifiers × SchemaNode)) :
    (requiredNames fields).Sublist (fields.map (·.1)) := by
  unfold requiredNames
  exact (List.filter_sublist fields).map (·.1)

theorem mem_requiredNames (fields : List (String × FieldModifiers × SchemaNode)) (name : String) :
    name ∈ requiredNames fields ↔
      ∃ m s, (name, m, s) ∈ fields ∧ m.optional = false ∧ m.default = none := by
  simp only [requiredNames, List.mem_map, List.mem_filter]
  constructor
  · rintro ⟨⟨n, m, s⟩, ⟨hmem, hp⟩, rfl⟩
    simp only [Bool.and_eq_true, Bool.not_eq_true', Option.isNone_iff_eq_none] at hp
    exact ⟨m, s, hmem, hp.1, hp.2⟩
  · rintro ⟨m, s, hmem, hopt, hdef⟩
    refine ⟨(name, m, s), ⟨hmem, ?_⟩, rfl⟩
    simp [hopt, hdef]

/-- C1: for every `ObjectType` node, the lowered output's `required` list is
present exactly when it is non-empty and then lists, in declaration order,
exactly the field names whose modifiers have `optional = false` and no
default value; membership holds iff those two conditions do, and the list is
a sublist of the field names in declaration order. -/
theorem required_list_correct (fields : List (String × FieldModifiers × SchemaNode)) :
    jsonGet (lowerNode (.objectType fields)) "required"
        = (if requiredNames fields = [] then none
           else some (.arr ((requiredNames fields).map .str)))
      ∧ (∀ name, name ∈ requiredNames fields ↔
          ∃ m s, (name, m, s) ∈ fields ∧ m.optional = false ∧ m.default = none)
      ∧ (requiredNames fields).Sublist (fields.map (·.1)) := by
  refine ⟨?_, fun name => mem_requiredNames fields name, requiredNames_sublist fields⟩
  rcases h : requiredNames fields with _ | ⟨r, rs⟩ <;>
    simp [lowerNode, h, jsonGet, lookupEntry]

/-- C2: every `Date` node lowers to the fixed three-member `anyOf`
(string/date-time, string/date, integer/unix-time), and the output for a
coercing date declaration equals the output for a strict one. -/
theorem date_lowering_fixed (c : Bool) :
    lowerNode (.date c) =
        .obj [("anyOf", .arr
          [ .obj [("type", .str "string"), ("format", .str "date-time")]
          , .obj [("type", .str "string"), ("format", .str "date")]
          , .obj [("type", .str "integer"), ("format", .str "unix-time")]])]
      ∧ lowerNode (.date true) = lowerNode (.date false) :=
  ⟨rfl, rfl⟩

/-- C10: a `Record` node declared with both a key schema and a value schema
lowers with the key schema dropped entirely: the output is the open object
with `additionalProperties` holding the lowered value schema, identical to
the output for the record declared with the value schema alone. -/
theorem record_drops_key_schema (k v : SchemaNode) :
    lowerNode (.recordKV k v) = lowerNode (.record v)
      ∧ lowerNode (.recordKV k v)
          = .obj [("type", .str "object"), ("additionalProperties", lowerNode v)]
      ∧ jsonGet (lowerNode (.recordKV k v)) "properties" = none
      ∧ jsonGet (lowerNode (.recordKV k v)) "additionalProperties" = some (lowerNode v) := by
  refine ⟨rfl, rfl, ?_, ?_⟩ <;> simp [lowerNode, jsonGet, lookupEntry]

/-- C5: a node carrying only a custom refinement or transform lowers exactly
as the underlying node (bare primitive shape, no extra keys), resolution of
such a node succeeds precisely when the underlying node's resolution does
(no diagnostic is raised for the drop), and a structural length constraint
declared alongside the refinement is still emitted. -/
theorem refinement_transform_dropped (n : SchemaNode) (env : Env) (p : List String) (rn : RawNode) :
    lowerNode (.refined n) = lowerNode n
      ∧ lowerNode (.transformed n) = lowerNode n
      ∧ ((∃ s, resolveNode env p (.refined rn) = .ok s) ↔
          (∃ s, resolveNode env p rn = .ok s))
      ∧ ((∃ s, resolveNode env p (.transformed rn) = .ok s) ↔
          (∃ s, resolveNode env p rn = .ok s))
      ∧ lowerNode (.refined (.string none none none)) = .obj [("type", .str "string")]
      ∧ lowerNode (.refined (.array (.string none none none) (some 1) none))
          = .obj [("type", .str "array"), ("items", .obj [("type", .str "string")]),
                  ("minItems", .num 1)] := by
  refine ⟨rfl, rfl, ?_, ?_, rfl, rfl⟩ <;>
    · rcases h : resolveNode env p rn with e | s <;>
        simp [resolveNode, h, Except.map]

theorem requiredNames_nil_of_all_opt (fields : List (String × FieldModifiers × SchemaNode))
    (h : ∀ f ∈ fields, f.2.1.optional = true ∨ f.2.1.default ≠ none) :
    requiredNames fields = [] := by
  have : fields.filter (fun f => !f.2.1.optional && f.2.1.default.isNone) = [] := by
    rw [List.filter_eq_nil_iff]
    intro f hf
    rcases h f hf with ho | hd
    · simp [ho]
    · simp [Option.isNone_iff_eq_none, hd]
  simp [requiredNames, this]

/-- C9: an `ObjectType` node all of whose fields are optional or defaulted
lowers without any `required` key, while still emitting `type`, `properties`
and `additionalProperties: false`. -/
theorem empty_required_omitted (fields : List (String × FieldModifiers × SchemaNode))
    (h : ∀ f ∈ fields, f.2.1.optional = true ∨ f.2.1.default ≠ none) :
    jsonGet (lowerNode (.objectType fields)) "required" = none
      ∧ jsonGet (lowerNode (.objectType fields)) "type" = some (.str "object")
      ∧ jsonGet (lowerNode (.objectType fields)) "properties"
          = some (.obj (lowerFields fields))
      ∧ jsonGet (lowerNode (.objectType fields)) "additionalProperties"
          = some (.bool false) := by
  have hreq := requiredNames_nil_of_all_opt fields h
  refine ⟨?_, ?_, ?_, ?_⟩ <;> simp [lowerNode, hreq, jsonGet, lookupEntry]

/-- Concrete instance of `empty_required_omitted`: the `social` nested object
of the authors collection, whose three fields are all optional. -/
theorem empty_required_omitted_witness :
    jsonGet (lowerNode (.objectType
        [("twitter", ⟨true, none, none, []⟩, .string none none none),
         ("github", ⟨true, none, none, []⟩, .string none none none),
         ("linkedin", ⟨true, none, none, []⟩, .string none none none)])) "required" = none :=
  (empty_required_omitted _ (by intro f hf; simp at hf; rcases hf with rfl | rfl | rfl <;> simp)).1

theorem asLiteral_eq_some {v : SchemaNode} {l : LitVal} (h : asLiteral v = some l) :
    v = .literal l := by
  cases v <;> simp_all [asLiteral]

theorem allLiterals_map_literal (lits : List LitVal) :
    allLiterals (lits.map SchemaNode.literal) = some lits := by
  induction lits with
  | nil => rfl
  | cons l ls ih => simp [allLiterals, asLiteral, ih]

theorem allLiterals_some {vs : List SchemaNode} {lits : List LitVal}
    (h : allLiterals vs = some lits) : vs = lits.map SchemaNode.literal := by
  induction vs generalizing lits with
  | nil => simp [allLiterals] at h; simp [← h]
  | cons v vs ih =>
    rw [allLiterals] at h
    cases hv : asLiteral v with
    | none => simp [hv] at h
    | some l =>
      cases hrest : allLiterals vs with
      | none => simp [hv, hrest] at h
      | some ls =>
        simp only [hv, hrest] at h
        cases h
        simp [asLiteral_eq_some hv, ih hrest]

theorem allLiterals_none {vs : List SchemaNode}
    (h : ∃ v ∈ vs, asLiteral v = none) : allLiterals vs = none := by
  induction vs with
  | nil => simp at h
  | cons v vs ih =>
    rcases h with ⟨w, hw, hnone⟩
    rcases List.mem_cons.mp hw with rfl | hmem
    · simp [allLiterals, hnone]
    · rw [allLiterals, ih ⟨w, hmem, hnone⟩]
      cases hv : asLiteral v <;> rfl

/-- C3: a `Union` node whose variants are all literals of one primitive type
lowers to the `{type, enum}` shape carrying the literal values (hence no
`anyOf` key at all); a `Union` node with at least one non-literal variant, or
with literals of mixed primitive types, lowers to the `anyOf` of the lowered
variants. -/
theorem union_literal_enum :
    (∀ (lits : List LitVal) (t : String), lits ≠ [] → (∀ l ∈ lits, litType l = t) →
        lowerNode (.union (lits.map .literal))
            = .obj [("type", .str t), ("enum", .arr (lits.map litToJson))]
          ∧ jsonGet (lowerNode (.union (lits.map .literal))) "anyOf" = none)
      ∧ (∀ vs : List SchemaNode,
          ((∃ v ∈ vs, asLiteral v = none) ∨
            (∃ l1 l2, SchemaNode.literal l1 ∈ vs ∧ SchemaNode.literal l2 ∈ vs ∧
              litType l1 ≠ litType l2)) →
          lowerNode (.union vs) = .obj [("anyOf", .arr (vs.map lowerNode))]) := by
  constructor
  · intro lits t hne hall
    rcases lits with _ | ⟨l, ls⟩
    · exact absurd rfl hne
    · have hmapM := allLiterals_map_literal (l :: ls)
      have hallls : ls.all (fun x => litType x == litType l) = true := by
        rw [List.all_eq_true]
        intro x hx
        simp [hall x (List.mem_cons_of_mem _ hx), hall l (List.mem_cons_self _ _)]
      have ht : litType l = t := hall l (List.mem_cons_self _ _)
      have hu : uniformLiterals ((l :: ls).map SchemaNode.literal)
          = some (litType l, l :: ls) := by
        unfold uniformLiterals
        rw [hmapM]
        simp [hallls]
      constructor
      · simp only [lowerNode, hu]
        simp [ht]
      · simp only [lowerNode, hu, jsonGet]
        simp [lookupEntry]
  · intro vs h
    rcases hm : allLiterals vs with _ | lits
    · have hu : uniformLiterals vs = none := by
        unfold uniformLiterals
        rw [hm]
      simp only [lowerNode, hu]
      rw [lowerList_eq_map]
    · have hvs := allLiterals_some hm
      subst hvs
      rcases h with ⟨v, hv, hnone⟩ | ⟨l1, l2, h1, h2, hne⟩
      · rcases List.mem_map.mp hv with ⟨l, _, rfl⟩
        simp [asLiteral] at hnone
      · rcases lits with _ | ⟨l, ls⟩
        · simp at h1
        · have hty : ∀ x, SchemaNode.literal x ∈ (l :: ls).map SchemaNode.literal →
              x ∈ l :: ls := by
            intro x hx
            rcases List.mem_map.mp hx with ⟨y, hy, hey⟩
            injection hey with he
            exact he ▸ hy
          by_cases hallb : (ls.all (fun x => litType x == litType l)) = true
          · exfalso
            have htypes : ∀ x ∈ l :: ls, litType x = litType l := by
              intro x hx
              rcases List.mem_cons.mp hx with rfl | hx
              · rfl
              · simpa using (List.all_eq_true.mp hallb) x hx
            exact hne ((htypes l1 (hty l1 h1)).trans (htypes l2 (hty l2 h2)).symm)
          · rw [Bool.not_eq_true] at hallb
            have hu : uniformLiterals ((l :: ls).map SchemaNode.literal) = none := by
              unfold uniformLiterals
              rw [hm]
              simp [hallb]
            simp only [lowerNode, hu]
            rw [lowerList_eq_map]

/-- Concrete instance of `union_literal_enum`: the projects collection's
`visibility` union of three string literals collapses to an enum, and a
mixed union of a string and a boolean falls back to `anyOf`. -/
theorem union_literal_enum_witness :
    lowerNode (.union [.literal (.str "public"), .literal (.str "private"),
        .literal (.str "internal")])
        = .obj [("type", .str "string"),
                ("enum", .arr [.str "public", .str "private", .str "internal"])]
      ∧ lowerNode (.union [.string none none none, .boolean])
        = .obj [("anyOf", .arr [.obj [("type", .str "string")],
                                .obj [("type", .str "boolean")]])] := by
  constructor
  · exact (union_literal_enum.1 [.str "public", .str "private", .str "internal"] "string"
      (by simp) (by intro l hl; simp only [List.mem_cons, List.not_mem_nil, or_false] at hl; rcases hl with rfl | rfl | rfl <;> rfl)).1
  · exact union_literal_enum.2 [.string none none none, .boolean]
      (Or.inl ⟨.string none none none, by simp, rfl⟩)

/-- C4: a file-loader collection's definition body is an object whose only
declared property is the synthetic `$schema` string field, with the full
lowered entry schema behind `additionalProperties`; a glob- or custom-loader
collection's definition body is the lowered entry schema itself with the
synthetic `$schema` property prepended to `properties` and `required` and
`additionalProperties` left untouched. -/
theorem collection_wrapper_shapes (fields : List (String × FieldModifiers × SchemaNode)) :
    definitionBody .file (lowerNode (.objectType fields))
        = .obj [("type", .str "object"),
                ("properties", .obj [("$schema", .obj [("type", .str "string")])]),
                ("additionalProperties", lowerNode (.objectType fields))]
      ∧ (∀ lk : LoaderKind, lk = .glob ∨ lk = .custom →
          jsonGet (definitionBody lk (lowerNode (.objectType fields))) "properties"
              = some (.obj (("$schema", .obj [("type", .str "string")]) :: lowerFields fields))
            ∧ jsonGet (definitionBody lk (lowerNode (.objectType fields))) "required"
              = jsonGet (lowerNode (.objectType fields)) "required"
            ∧ jsonGet (definitionBody lk (lowerNode (.objectType fields))) "additionalProperties"
              = some (.bool false)) := by
  constructor
  · rfl
  · rintro lk (rfl | rfl) <;>
      [skip; skip] <;>
      refine ⟨?_, ?_, ?_⟩ <;>
      rcases hreq : requiredNames fields with _ | ⟨r, rs⟩ <;>
      simp [lowerNode, hreq, definitionBody, injectSchemaProp, addSchemaProp,
        schemaPropEntry, jsonGet, lookupEntry]

/-- Concrete instance of `collection_wrapper_shapes`: the glob case for the
one-field entry schema with a required `title` string. -/
theorem collection_wrapper_shapes_witness :
    jsonGet (definitionBody .glob
        (lowerNode (.objectType [("title", .plain, .string none none none)]))) "properties"
      = some (.obj [("$schema", .obj [("type", .str "string")]),
                    ("title", .obj [("type", .str "string")])]) :=
  ((collection_wrapper_shapes [("title", .plain, .string none none none)]).2 .glob
    (Or.inl rfl)).1

theorem countRefMembers_append (xs ys : List (String × Json)) :
    countRefMembers (xs ++ ys) = countRefMembers xs + countRefMembers ys := by
  induction xs with
  | nil => simp [countRefMembers]
  | cons x xs ih =>
    cases x
    simp [countRefMembers, ih, Nat.add_assoc]

theorem countRefList_map_str (l : List String) : countRefList (l.map .str) = 0 := by
  induction l with
  | nil => rfl
  | cons s l ih => simp [countRefList, countRef, ih]

theorem countRef_litToJson (x : LitVal) : countRef (litToJson x) = 0 := by
  cases x <;> rfl

theorem countRefList_map_litToJson (ls : List LitVal) :
    countRefList (ls.map litToJson) = 0 := by
  induction ls with
  | nil => rfl
  | cons l ls ih => simp [countRefList, countRef_litToJson, ih]

theorem constraintKey_ne_ref (c : ConstraintName) : ¬constraintKey c = "$ref" := by
  cases c <;> simp [constraintKey]

theorem countRefMembers_errorEntries (es : List (ConstraintName × String)) :
    countRefMembers (es.map fun e => (constraintKey e.1, .str e.2)) = 0 := by
  induction es with
  | nil => rfl
  | cons e es ih =>
    simp [countRefMembers, countRef, constraintKey_ne_ref, ih]

theorem countRef_applyModifiers (m : FieldModifiers) (j : Json)
    (hm : modClean m = true) (hj : countRef j = 0) :
    countRef (applyModifiers m j) = 0 := by
  cases j with
  | obj kvs =>
    have hdesc : countRefMembers
        (match m.description with
         | some d => [("description", Json.str d), ("markdownDescription", Json.str d)]
         | none => []) = 0 := by
      cases m.description <;> simp [countRefMembers, countRef]
    have hdef : countRefMembers (optEntry "default" id m.default) = 0 := by
      cases hd : m.default with
      | none => rfl
      | some d =>
        have : countRef d = 0 := by
          simpa [modClean, hd] using hm
        simp [optEntry, countRefMembers, this]
    have herr : countRefMembers
        (match m.errorMessages with
         | [] => []
         | es => [("errorMessage", Json.obj (es.map fun e => (constraintKey e.1, .str e.2)))]) = 0 := by
      cases m.errorMessages with
      | nil => rfl
      | cons e es =>
        have h1 := countRefMembers_errorEntries (e :: es)
        simp [countRefMembers, countRef, constraintKey_ne_ref] at h1 ⊢
        omega
    simp only [applyModifiers, countRef, countRefMembers_append]
    simp only [countRef] at hj
    omega
  | str s => simpa [applyModifiers] using hj
  | num n => simpa [applyModifiers] using hj
  | bool b => simpa [applyModifiers] using hj
  | arr es => simpa [applyModifiers] using hj

mutual

theorem countRef_lowerNode : ∀ n : SchemaNode, refClean n = true → countRef (lowerNode n) = 0
  | .string minL maxL fmt, _ => by
      cases minL <;> cases maxL <;> cases fmt <;>
        simp [lowerNode, optEntry, countRef, countRefMembers]
  | .number isInt mn mx pos, _ => by
      cases mn <;> cases mx <;> cases pos <;>
        simp [lowerNode, optEntry, countRef, countRefMembers]
  | .boolean, _ => rfl
  | .date c, _ => rfl
  | .literal v, _ => by cases v <;> rfl
  | .enum vals, _ => by
      simp [lowerNode, countRef, countRefMembers, countRefList_map_str]
  | .array item mi ma, h => by
      have ih := countRef_lowerNode item (by simpa [refClean] using h)
      cases mi <;> cases ma <;>
        simp [lowerNode, optEntry, countRef, countRefMembers, ih]
  | .tuple items, h => by
      have ih := countRefList_lowerList items (by simpa [refClean] using h)
      simp [lowerNode, countRef, countRefMembers, ih]
  | .objectType fields, h => by
      have ih := countRefMembers_lowerFields fields (by simpa [refClean] using h)
      rcases hreq : requiredNames fields with _ | ⟨r, rs⟩ <;>
        simp [lowerNode, hreq, countRef, countRefMembers, countRefList,
          countRefMembers_append, ih, countRefList_map_str]
  | .record v, h => by
      have ih := countRef_lowerNode v (by simpa [refClean] using h)
      simp [lowerNode, countRef, countRefMembers, ih]
  | .recordKV k v, h => by
      have ih := countRef_lowerNode v (by simpa [refClean] using h)
      simp [lowerNode, countRef, countRefMembers, ih]
  | .union variants, h => by
      have ih := countRefList_lowerList variants (by simpa [refClean] using h)
      rcases hu : uniformLiterals variants with _ | ⟨t, lits⟩ <;>
        simp [lowerNode, hu, countRef, countRefMembers, ih, countRefList_map_litToJson]
  | .discUnion key variants, h => by
      have ih := countRefList_lowerList variants (by simpa [refClean] using h)
      simp [lowerNode, countRef, countRefMembers, ih]
  | .reference t, _ => rfl
  | .image, _ => rfl
  | .refined inner, h => countRef_lowerNode inner (by simpa [refClean] using h)
  | .transformed inner, h => countRef_lowerNode inner (by simpa [refClean] using h)

theorem countRefList_lowerList : ∀ ns : List SchemaNode, refCleanList ns = true →
    countRefList (lowerList ns) = 0
  | [], _ => rfl
  | n :: ns, h => by
      have h' : refClean n = true ∧ refCleanList ns = true := by
        simpa [refCleanList] using h
      simp [lowerList, countRefList, countRef_lowerNode n h'.1, countRefList_lowerList ns h'.2]

theorem countRefMembers_lowerFields : ∀ fs : List (String × FieldModifiers × SchemaNode),
    refCleanFields fs = true → countRefMembers (lowerFields fs) = 0
  | [], _ => rfl
  | (name, m, s) :: fs, h => by
      have h' : ¬name = "$ref" ∧ modClean m = true ∧ refClean s = true ∧
          refCleanFields fs = true := by
        simpa [refCleanFields, and_assoc] using h
      obtain ⟨hname, hmod, hs, hfs⟩ := h'
      simp [lowerFields, countRefMembers, hname,
        countRef_applyModifiers m _ hmod (countRef_lowerNode s hs),
        countRefMembers_lowerFields fs hfs]

end

theorem countRef_injectSchemaProp (fields : List (String × FieldModifiers × SchemaNode)) :
    countRef (injectSchemaProp (lowerNode (.objectType fields)))
      = countRef (lowerNode (.objectType fields)) := by
  rcases hreq : requiredNames fields with _ | ⟨r, rs⟩ <;>
    simp [lowerNode, hreq, injectSchemaProp, addSchemaProp, schemaPropEntry,
      countRef, countRefMembers, countRefMembers_append]

theorem countRef_emitDocument (name : String) (lk : LoaderKind)
    (fields : List (String × FieldModifiers × SchemaNode))
    (hname : ¬name = "$ref") (hclean : refCleanFields fields = true) :
    countRef (emitDocument name lk (lowerNode (.objectType fields))) = 1 := by
  have h0 : countRef (lowerNode (.objectType fields)) = 0 :=
    countRef_lowerNode _ (by simpa [refClean] using hclean)
  have hinj := countRef_injectSchemaProp fields
  simp only [countRef] at h0 hinj
  cases lk <;>
    simp [emitDocument, definitionBody, countRef, countRefMembers, hname, h0,
      hinj, schemaPropEntry]

/-- C6: a reusable schema fragment referenced at two distinct field sites is
independently inlined at each site, and the two emitted JSON fragments are
equal (each one is the same fully-expanded `applyModifiers m (lowerNode
frag)` value, with no reference token standing in for either); moreover no
`$ref` key occurs anywhere in a lowered fragment, so a full emitted document
contains exactly the single fixed top-level `$ref`. -/
theorem fragment_inlining_no_ref :
    (∀ (env : Env) (p : List String) (g : String) (frag : SchemaNode) (f1 f2 : String)
        (rm : RawFieldModifiers) (m : FieldModifiers),
        env.fragments g = some frag →
        (∀ q, resolveModifiers env q rm = .ok m) →
        resolveNode env p (.objectType [(f1, rm, .fragRef g), (f2, rm, .fragRef g)])
            = .ok (.objectType [(f1, m, frag), (f2, m, frag)])
          ∧ lowerFields [(f1, m, frag), (f2, m, frag)]
            = [(f1, applyModifiers m (lowerNode frag)),
               (f2, applyModifiers m (lowerNode frag))])
      ∧ (∀ n : SchemaNode, refClean n = true → countRef (lowerNode n) = 0)
      ∧ (∀ (name : String) (lk : LoaderKind)
          (fields : List (String × FieldModifiers × SchemaNode)),
          ¬name = "$ref" → refCleanFields fields = true →
          countRef (emitDocument name lk (lowerNode (.objectType fields))) = 1) := by
  refine ⟨?_, countRef_lowerNode, countRef_emitDocument⟩
  intro env p g frag f1 f2 rm m hfrag hm
  refine ⟨?_, rfl⟩
  simp only [resolveNode, resolveFields, hm, hfrag]
  rfl

/-- Concrete instance of `fragment_inlining_no_ref`: the `seoSchema` fragment
of the schema-patterns site, inlined at two field sites of one object; its
resolution duplicates the expanded fragment at both sites. -/
theorem fragment_inlining_no_ref_witness :
    resolveNode
        ⟨fun _ => none,
         fun x => if x = "seoSchema" then
             some (.objectType
               [("title", .plain, .string (some 5) (some 120) none),
                ("description", .plain, .string (some 15) (some 160) none)])
           else none⟩
        [] (.objectType [("seo", .plain, .fragRef "seoSchema"),
                         ("ogMeta", .plain, .fragRef "seoSchema")])
      = .ok (.objectType
          [("seo", .plain, .objectType
              [("title", .plain, .string (some 5) (some 120) none),
               ("description", .plain, .string (some 15) (some 160) none)]),
           ("ogMeta", .plain, .objectType
              [("title", .plain, .string (some 5) (some 120) none),
               ("description", .plain, .string (some 15) (some 160) none)])]) :=
  (fragment_inlining_no_ref.1 _ [] "seoSchema" _ "seo" "ogMeta" .plain .plain
    (by simp) (fun q => rfl)).1

theorem except_ok_bind {α β ε : Type} (a : α) (f : α → Except ε β) :
    (Except.ok a >>= f) = f a := rfl

theorem except_error_bind {α β ε : Type} (e : ε) (f : α → Except ε β) :
    ((Except.error e : Except ε α) >>= f) = .error e := rfl

/-- C7: an identifier imported from another module resolves, through the
module graph, to the same concrete value as the identical identifier
declared locally in the source module, so the emitted enum list (and a
default resolved from it) is independent of where the identifier was
declared. -/
theorem cross_module_resolution (ms : List (String × SourceModule)) (fuel : Nat)
    (modA modB : String) (mA mB : SourceModule) (x : String) (v : Json) (p : List String)
    (hB : lookupIn ms modB = some mB)
    (hBdecl : lookupIn mB.decls x = none)
    (hBimp : lookupIn mB.imports x = some modA)
    (hA : lookupIn ms modA = some mA)
    (hAdecl : lookupIn mA.decls x = some v) :
    lookupConst ms (fuel + 1 + 1) modB x = some v
      ∧ lookupConst ms (fuel + 1) modA x = some v
      ∧ resolveNode (moduleEnv ms (fuel + 1 + 1) modB) p (.enum (.ident x))
          = resolveNode (moduleEnv ms (fuel + 1) modA) p (.enum (.ident x))
      ∧ (∀ strs, asStringList v = some strs →
          resolveNode (moduleEnv ms (fuel + 1 + 1) modB) p (.enum (.ident x))
            = .ok (.enum strs))
      ∧ resolveValue (moduleEnv ms (fuel + 1 + 1) modB) p (.ident x) = .ok v := by
  have hA' : lookupConst ms (fuel + 1) modA x = some v := by
    simp [lookupConst, hA, hAdecl]
  have hB' : lookupConst ms (fuel + 1 + 1) modB x = some v := by
    simp [lookupConst, hB, hBdecl, hBimp, hA, hAdecl]
  refine ⟨hB', hA', ?_, ?_, ?_⟩
  · simp [resolveNode, resolveEnum, Env.value?, moduleEnv, hA', hB']
  · intro strs hstrs
    simp [resolveNode, resolveEnum, Env.value?, moduleEnv, hB', hstrs, Except.map]
  · simp [resolveValue, Env.value?, moduleEnv, hB']

/-- Concrete instance of `cross_module_resolution`: `ARTICLE_STATUSES`,
declared in the constants module and imported by the config module, emits
the same enum list as it would declared locally. -/
theorem cross_module_resolution_witness :
    resolveNode
        (moduleEnv
          [("constants",
            ⟨[("ARTICLE_STATUSES",
               .arr [.str "draft", .str "published", .str "archived"])], []⟩),
           ("config", ⟨[], [("ARTICLE_STATUSES", "constants")]⟩)]
          2 "config")
        [] (.enum (.ident "ARTICLE_STATUSES"))
      = .ok (.enum ["draft", "published", "archived"]) :=
  (cross_module_resolution
    [("constants",
      ⟨[("ARTICLE_STATUSES", .arr [.str "draft", .str "published", .str "archived"])], []⟩),
     ("config", ⟨[], [("ARTICLE_STATUSES", "constants")]⟩)]
    0 "constants" "config"
    ⟨[("ARTICLE_STATUSES", .arr [.str "draft", .str "published", .str "archived"])], []⟩
    ⟨[], [("ARTICLE_STATUSES", "constants")]⟩ "ARTICLE_STATUSES"
    (.arr [.str "draft", .str "published", .str "archived"]) []
    (by simp [lookupIn]) (by simp [lookupIn]) (by simp [lookupIn])
    (by simp [lookupIn]) (by simp [lookupIn])).2.2.2.1
    ["draft", "published", "archived"] rfl

theorem resolveEnum_ok_no_unresolved (env : Env) (p : List String) (src : EnumSource)
    (strs : List String) (h : resolveEnum env p src = .ok strs) :
    enumUnresolved env src = false := by
  cases src with
  | inline vals => rfl
  | ident x =>
    cases hv : env.values x with
    | none => simp [resolveEnum, Env.value?, hv] at h
    | some v => simp [enumUnresolved, hv]

theorem resolveModifiers_ok_no_unresolved (env : Env) (p : List String)
    (rm : RawFieldModifiers) (m : FieldModifiers)
    (h : resolveModifiers env p rm = .ok m) :
    valueUnresolved env rm.default = false := by
  cases hd : rm.default with
  | none => rfl
  | some rv =>
    cases rv with
    | lit v => rfl
    | ident x =>
      cases hv : env.values x with
      | none =>
        rw [resolveModifiers, hd] at h
        simp [resolveValue, Env.value?, hv, Except.map] at h
      | some v => simp [valueUnresolved, hv]

mutual

theorem resolveNode_ok_no_unresolved : ∀ (env : Env) (p : List String) (rn : RawNode)
    (s : SchemaNode), resolveNode env p rn = .ok s → hasUnresolved env rn = false
  | env, p, .string minL maxL fmt, _, _ => rfl
  | env, p, .number isInt mn mx pos, _, _ => rfl
  | env, p, .boolean, _, _ => rfl
  | env, p, .date c, _, _ => rfl
  | env, p, .literal v, _, _ => rfl
  | env, p, .enum src, s, h => by
      cases hr : resolveEnum env p src with
      | error e => simp [resolveNode, hr, Except.map] at h
      | ok strs =>
          simpa [hasUnresolved] using resolveEnum_ok_no_unresolved env p src strs hr
  | env, p, .array item mi ma, s, h => by
      cases hr : resolveNode env p item with
      | error e => simp [resolveNode, hr, Except.map] at h
      | ok i =>
          simpa [hasUnresolved] using resolveNode_ok_no_unresolved env p item i hr
  | env, p, .tuple items, s, h => by
      cases hr : resolveList env p items with
      | error e => simp [resolveNode, hr, Except.map] at h
      | ok ls =>
          simpa [hasUnresolved] using resolveList_ok_no_unresolved env p items ls hr
  | env, p, .objectType fields, s, h => by
      cases hr : resolveFields env p fields with
      | error e => simp [resolveNode, hr, Except.map] at h
      | ok fs =>
          simpa [hasUnresolved] using resolveFields_ok_no_unresolved env p fields fs hr
  | env, p, .record v, s, h => by
      cases hr : resolveNode env p v with
      | error e => simp [resolveNode, hr, Except.map] at h
      | ok v' =>
          simpa [hasUnresolved] using resolveNode_ok_no_unresolved env p v v' hr
  | env, p, .recordKV k v, s, h => by
      cases hrk : resolveNode env p k with
      | error e => simp [resolveNode, hrk, except_ok_bind, except_error_bind] at h
      | ok k' =>
          cases hrv : resolveNode env p v with
          | error e => simp [resolveNode, hrk, hrv, except_ok_bind, except_error_bind] at h
          | ok v' =>
              have h1 := resolveNode_ok_no_unresolved env p k k' hrk
              have h2 := resolveNode_ok_no_unresolved env p v v' hrv
              simp [hasUnresolved, h1, h2]
  | env, p, .union vs, s, h => by
      cases hr : resolveList env p vs with
      | error e => simp [resolveNode, hr, Except.map] at h
      | ok ls =>
          simpa [hasUnresolved] using resolveList_ok_no_unresolved env p vs ls hr
  | env, p, .discUnion key vs, s, h => by
      cases hr : resolveList env p vs with
      | error e => simp [resolveNode, hr, Except.map] at h
      | ok ls =>
          simpa [hasUnresolved] using resolveList_ok_no_unresolved env p vs ls hr
  | env, p, .reference t, _, _ => rfl
  | env, p, .image, _, _ => rfl
  | env, p, .refined inner, s, h => by
      cases hr : resolveNode env p inner with
      | error e => simp [resolveNode, hr, Except.map] at h
      | ok i =>
          simpa [hasUnresolved] using resolveNode_ok_no_unresolved env p inner i hr
  | env, p, .transformed inner, s, h => by
      cases hr : resolveNode env p inner with
      | error e => simp [resolveNode, hr, Except.map] at h
      | ok i =>
          simpa [hasUnresolved] using resolveNode_ok_no_unresolved env p inner i hr
  | env, p, .fragRef x, s, h => by
      cases hf : env.fragments x with
      | none => simp [resolveNode, hf] at h
      | some frag => simp [hasUnresolved, hf]

theorem resolveList_ok_no_unresolved : ∀ (env : Env) (p : List String) (ns : List RawNode)
    (ls : List SchemaNode), resolveList env p ns = .ok ls → hasUnresolvedList env ns = false
  | env, p, [], _, _ => rfl
  | env, p, n :: ns, ls, h => by
      cases hr : resolveNode env p n with
      | error e => simp [resolveList, hr, except_ok_bind, except_error_bind] at h
      | ok n' =>
          cases hrest : resolveList env p ns with
          | error e => simp [resolveList, hr, hrest, except_ok_bind, except_error_bind] at h
          | ok ns' =>
              have h1 := resolveNode_ok_no_unresolved env p n n' hr
              have h2 := resolveList_ok_no_unresolved env p ns ns' hrest
              simp [hasUnresolvedList, h1, h2]

theorem resolveFields_ok_no_unresolved : ∀ (env : Env) (p : List String)
    (fs : List (String × RawFieldModifiers × RawNode))
    (out : List (String × FieldModifiers × SchemaNode)),
    resolveFields env p fs = .ok out → hasUnresolvedFields env fs = false
  | env, p, [], _, _ => rfl
  | env, p, (name, rm, rn) :: fs, out, h => by
      cases hm : resolveModifiers env (p ++ [name]) rm with
      | error e => simp [resolveFields, hm, except_ok_bind, except_error_bind] at h
      | ok m =>
          cases hn : resolveNode env (p ++ [name]) rn with
          | error e => simp [resolveFields, hm, hn, except_ok_bind, except_error_bind] at h
          | ok n =>
              cases hrest : resolveFields env p fs with
              | error e =>
                simp [resolveFields, hm, hn, hrest, except_ok_bind, except_error_bind] at h
              | ok rest =>
                  have h1 := resolveModifiers_ok_no_unresolved env (p ++ [name]) rm m hm
                  have h2 := resolveNode_ok_no_unresolved env (p ++ [name]) rn n hn
                  have h3 := resolveFields_ok_no_unresolved env p fs rest hrest
                  simp [hasUnresolvedFields, h1, h2, h3]

end

/-- C8: a tree containing an identifier the environment cannot resolve makes
the whole collection pipeline return a fatal `ResolveError` (so no document,
partial or placeholder-bearing, is ever produced: an emitted document
certifies every identifier resolved), and the error carries the offending
field path and identifier name. -/
theorem unresolved_identifier_fatal :
    (∀ (env : Env) (c : CollectionDefinition), hasUnresolved env c.rootSchema = true →
        ∃ e : ResolveError, lowerCollection env c = .error e)
      ∧ (∀ (env : Env) (c : CollectionDefinition) (doc : Json),
          lowerCollection env c = .ok doc → hasUnresolved env c.rootSchema = false)
      ∧ (∀ (env : Env) (name : String) (lk : LoaderKind) (fname x : String)
          (rm : RawFieldModifiers) (m : FieldModifiers)
          (rest : List (String × RawFieldModifiers × RawNode)),
          (∀ q, resolveModifiers env q rm = .ok m) →
          env.values x = none →
          lowerCollection env ⟨name, lk, .objectType ((fname, rm, .enum (.ident x)) :: rest)⟩
            = .error ⟨[fname], x⟩) := by
  refine ⟨?_, ?_, ?_⟩
  · intro env c hu
    cases hr : resolveNode env [] c.rootSchema with
    | error e => exact ⟨e, by simp [lowerCollection, hr, Except.map]⟩
    | ok s =>
        have := resolveNode_ok_no_unresolved env [] c.rootSchema s hr
        rw [this] at hu
        cases hu
  · intro env c doc h
    cases hr : resolveNode env [] c.rootSchema with
    | error e => simp [lowerCollection, hr, Except.map] at h
    | ok s => exact resolveNode_ok_no_unresolved env [] c.rootSchema s hr
  · intro env name lk fname x rm m rest hm hx
    simp [lowerCollection, resolveNode, resolveFields, hm, resolveEnum, Env.value?,
      hx, Except.map, except_ok_bind, except_error_bind]

/-- Concrete instance of `unresolved_identifier_fatal`: an enum referencing
an identifier absent from the environment aborts the collection with the
field path and identifier name, emitting nothing. -/
theorem unresolved_identifier_fatal_witness :
    lowerCollection ⟨fun _ => none, fun _ => none⟩
        ⟨"articles", .glob, .objectType [("status", .plain, .enum (.ident "MISSING"))]⟩
      = .error ⟨["status"], "MISSING"⟩ :=
  unresolved_identifier_fatal.2.2 _ "articles" .glob "status" "MISSING" .plain .plain []
    (fun _q => rfl) rfl
